import Mathlib

/-!
Verification development for the `sku-dupe-finder` analysis core
(`src/sku_dupe_finder_starter/src/sku_dupe_finder/core.py`).

The Python core is embedded shallowly:

* Cell values reaching `normalize_sku` are modelled by `Val`: absent (NaN/None),
  a text value, an integer value, or an opaque value whose coercion to text
  raises.  Tables produced by the workbook reader are text-typed
  (`pd.read_excel(..., dtype=str)`), so table cells are `Option String`
  (`none` = NaN).
* Python floating point is IDEALIZED as exact decimal arithmetic: a
  numeric-looking string `d₁…dₘ.f₁…fₖ` is taken to denote the exact rational
  it spells, and `str(float(x))` / `str(int(float(x)))` as its canonical
  decimal rendering (integer part without leading zeros, fractional part
  without trailing zeros, dropped entirely when zero).  CPython floats are
  binary64 and round beyond 53 significant bits (`float("9007199254740993")`
  is `9007199254740992.0`, `str(float("0.10000000000000000555"))` is `"0.1"`),
  so this idealization diverges from the program on such inputs; no theorem
  in this file asserts the rendered digits of the numeric branch.  The only
  properties proved through that branch are rounding-insensitive: the output
  is a present (non-sentinel, quote-free, whitespace-free) digit string that
  the text pipeline fixes, which holds equally for the rounded renderings.
* Character classes (`str.strip`, `\s`, `str.isdigit`, `[A-Za-z0-9]`,
  `str.upper`/`lower`) are modelled on their ASCII fragment.
* A function that can raise is embedded as `Except Unit _`; `.error ()` marks a
  propagated Python exception.
* Python `dict` assignment `d[k] = v` is `dictUpd`: replace in place when the
  key exists, append otherwise.
* `pd.crosstab(details["SKU"], details["File"])` and the derived
  `presence_bool` / `WorkbooksCount` column are modelled by `presenceCount`,
  `presenceKeys`, `presenceFiles` and `workbooksCount`, all derived from the
  record list exactly as the crosstab is derived from `details_df`.
* `df[name]` column access is by first matching name; inside `analyze` all
  column names have been stripped first, which is where the source performs
  such lookups.
-/

set_option maxHeartbeats 1000000

deriving instance DecidableEq for Except

namespace SkuDupe

/-- A raw value reaching `normalize_sku`.  `absent` is NaN/None (caught by
`pd.isna`), `uncoercible` is an object whose coercion to text raises. -/
inductive Val where
  | absent
  | str (s : String)
  | int (n : Int)
  | uncoercible
  deriving DecidableEq, Repr

/-- `pd.isna(val)`. -/
def pdIsna : Val → Bool
  | .absent => true
  | _ => false

/-- Python default whitespace (`str.strip`, regex `\s`), ASCII fragment. -/
def pySpace (c : Char) : Bool :=
  c = ' ' || c = '\t' || c = '\n' || c = '\r' || c = '\x0b' || c = '\x0c'

/-- Drop a maximal trailing run of characters satisfying `p`. -/
def dropEnd (p : Char → Bool) (l : List Char) : List Char :=
  (l.reverse.dropWhile p).reverse

/-- Python `str.strip(chars)`: drop maximal leading and trailing runs. -/
def pyStripWith (p : Char → Bool) (s : String) : String :=
  String.mk (dropEnd p (s.toList.dropWhile p))

/-- Python `str.strip()` (default whitespace). -/
def pyStrip (s : String) : String := pyStripWith pySpace s

/-- Python `str.strip(q)` for a single strip character `q`: note it removes
ALL leading and trailing occurrences, matched or not. -/
def stripChar (q : Char) (s : String) : String := pyStripWith (fun c => c = q) s

/-- One step of `re.sub(r"\s+", " ", s)`: each maximal whitespace run becomes
a single space.  The `Bool` flag records whether we are inside a run. -/
def collapseGo : Bool → List Char → List Char
  | _, [] => []
  | inRun, c :: rest =>
      if pySpace c then
        if inRun then collapseGo true rest else ' ' :: collapseGo true rest
      else c :: collapseGo false rest

/-- `re.sub(r"\s+", " ", s)`. -/
def collapseStr (s : String) : String := String.mk (collapseGo false s.toList)

/-- ASCII `str.upper` on one character (`'a'..'z'` is code 97..122). -/
def pyUpperChar (c : Char) : Char :=
  if 97 ≤ c.toNat ∧ c.toNat ≤ 122 then Char.ofNat (c.toNat - 32) else c

/-- Python `str.upper()` (ASCII fragment). -/
def pyUpper (s : String) : String := String.mk (s.toList.map pyUpperChar)

/-- ASCII `str.lower` on one character (`'A'..'Z'` is code 65..90). -/
def pyLowerChar (c : Char) : Char :=
  if 65 ≤ c.toNat ∧ c.toNat ≤ 90 then Char.ofNat (c.toNat + 32) else c

/-- Python `str.lower()` (ASCII fragment). -/
def pyLower (s : String) : String := String.mk (s.toList.map pyLowerChar)

/-- ASCII decimal digit, code 48..57 (`str.isdigit`, `[0-9]`). -/
def asciiDigit (c : Char) : Bool := 48 ≤ c.toNat && c.toNat ≤ 57

/-- ASCII letter (`[A-Za-z]`). -/
def asciiAlpha (c : Char) : Bool :=
  (65 ≤ c.toNat && c.toNat ≤ 90) || (97 ≤ c.toNat && c.toNat ≤ 122)

/-- Split a character list at its first `'.'`; when there is no dot the second
component is empty.  `replace('.', '', 1)` is recombination of the parts. -/
def splitFirstDot : List Char → List Char × List Char
  | [] => ([], [])
  | c :: rest =>
      if c = '.' then ([], rest)
      else
        let p := splitFirstDot rest
        (c :: p.1, p.2)

/-- Python `s.replace('.', '', 1)`. -/
def removeFirstDot (s : String) : String :=
  String.mk ((splitFirstDot s.toList).1 ++ (splitFirstDot s.toList).2)

/-- Python `str.isdigit()` (ASCII fragment): nonempty and all digits. -/
def pyIsdigit (s : String) : Bool :=
  !s.toList.isEmpty && s.toList.all asciiDigit

/-- The numeric-looking test from `normalize_sku`:
`val.strip().replace('.', '', 1).isdigit()`. -/
def strLooksNumeric (s : String) : Bool :=
  pyIsdigit (removeFirstDot (pyStrip s))

/-- Decimal digit as a character. -/
def digitChar : Nat → Char
  | 0 => '0' | 1 => '1' | 2 => '2' | 3 => '3' | 4 => '4'
  | 5 => '5' | 6 => '6' | 7 => '7' | 8 => '8' | _ => '9'

/-- Fuel-driven decimal digit expansion (big-endian), structural so that the
kernel can evaluate it. -/
def natDigitsGo : Nat → Nat → List Char
  | 0, _ => []
  | fuel + 1, n =>
      if n < 10 then [digitChar n]
      else natDigitsGo fuel (n / 10) ++ [digitChar (n % 10)]

/-- Python `str(n)` for a nonnegative integer. -/
def natStr (n : Nat) : String := String.mk (natDigitsGo (n + 1) n)

/-- Python `str(n)` for an integer. -/
def intStr (n : Int) : String :=
  if n < 0 then "-" ++ natStr n.natAbs else natStr n.toNat

/-- Numeric value of a digit character. -/
def digitVal (c : Char) : Nat := c.toNat - 48

/-- Value of a big-endian digit list. -/
def natOfDigits (l : List Char) : Nat :=
  l.foldl (fun a c => 10 * a + digitVal c) 0

/-- Drop trailing `'0'` characters. -/
def dropTrailingZeros (l : List Char) : List Char :=
  (l.reverse.dropWhile (fun c => c = '0')).reverse

/-- `str(float(s))` / `str(int(float(s)))` for a numeric-looking string `s`
(digits with at most one dot), under the exact-decimal IDEALIZATION of
Python floats: integral values render with no dot and no leading zeros,
others as `int part ++ "." ++ fraction` with trailing zeros dropped.  The
real binary64 `float` rounds beyond 53 significant bits, so this definition
is not digit-faithful to the program there; theorems use it only for
rounding-insensitive facts (its output is a nonempty digit/dot string). -/
def decCanon (s : String) : String :=
  let p := splitFirstDot s.toList
  let f := dropTrailingZeros p.2
  if f.isEmpty then natStr (natOfDigits p.1)
  else natStr (natOfDigits p.1) ++ "." ++ String.mk f

/-- The guarded numeric-coercion block of `normalize_sku` (lines 22-27):
replace a numeric-looking value by the text of its float.  For `Val.int n`
the source computes `str(int(float(n)))`, which this idealization renders as
exact `str(n)`; the real float round-trip rounds `|n| > 2^53`.  As with
`decCanon`, only rounding-insensitive properties of this branch are proved. -/
def tryNumeric (v : Val) : Val :=
  match v with
  | .int n => .str (intStr n)
  | .str s => if strLooksNumeric s then .str (decCanon (pyStrip s)) else v
  | _ => v

/-- Python `str(val)`; `none` when the coercion raises. -/
def pyStr : Val → Option String
  | .absent => some "nan"
  | .str s => some s
  | .int n => some (intStr n)
  | .uncoercible => none

/-- The sentinel set of `normalize_sku` (line 31). -/
def SENTINELS : List String := ["", "N/A", "NA", "NONE", "NULL", "-"]

/-- The text pipeline of `normalize_sku` lines 28-30:
`str(val).strip()`, collapse whitespace runs, `strip().strip('"').strip("'").upper()`. -/
def normCore (s : String) : String :=
  pyUpper (stripChar '\x27' (stripChar '"' (pyStrip (collapseStr (pyStrip s)))))

/-- `normalize_sku` (core.py lines 18-33).  `.error ()` models a propagated
exception (only the final `str(val)` sits outside the `try`), `.ok none`
models `None`, `.ok (some s)` a normalized SKU string. -/
def normalize_sku (v : Val) : Except Unit (Option String) :=
  if pdIsna v then .ok none
  else
    match pyStr (tryNumeric v) with
    | none => .error ()
    | some s0 =>
        let s := normCore s0
        if s ∈ SENTINELS then .ok none else .ok (some s)

/-- Normalization of a text-typed table cell (the only shapes `analyze` feeds
to `normalize_sku`); total because those shapes never raise. -/
def normCell : Option String → Option String
  | none => none
  | some s =>
      let s0 := if strLooksNumeric s then decCanon (pyStrip s) else s
      let r := normCore s0
      if r ∈ SENTINELS then none else some r

/-- A cell as a `normalize_sku` argument. -/
def Val.ofCell : Option String → Val
  | none => .absent
  | some s => .str s

/-- A sheet: ordered named columns of text-typed cells (`none` = NaN). -/
structure Table where
  cols : List (String × List (Option String))
  deriving DecidableEq, Repr

/-- `df.empty`: some axis has length 0. -/
def Table.isEmpty (t : Table) : Bool :=
  t.cols.isEmpty || t.cols.any (fun c => c.2.isEmpty)

/-- `[A-Za-z0-9]` found anywhere in the string (`Series.str.contains`). -/
def containsAlnum (s : String) : Bool :=
  s.toList.any (fun c => asciiAlpha c || asciiDigit c)

/-- The `seen`-set de-duplication loop at the end of `find_sku_columns`
(lines 62-67), generalized over the key (`c.lower()` in the source). -/
def dedupByAux (key : String → String) (seen : List String) : List String → List String
  | [] => []
  | c :: rest =>
      if key c ∈ seen then dedupByAux key seen rest
      else c :: dedupByAux key (key c :: seen) rest

/-- Case-insensitive first-seen de-duplication (`c.lower()` as the key). -/
def dedupCI (l : List String) : List String := dedupByAux pyLower [] l

/-- First-seen de-duplication (distinct values, first occurrences). -/
def uniq (l : List String) : List String := dedupByAux (fun c => c) [] l

/-- Stripped column names: `[str(c).strip() for c in df.columns]`. -/
def tableNames (t : Table) : List String :=
  t.cols.map (fun c => pyStrip c.1)

/-- `find_sku_columns` (core.py lines 40-68), with the compiled pattern list
abstracted as the predicate `rxMatch` ("some pattern finds a match in this
column name").  Explicit mode returns early, without de-duplication.  The
fallback reads `cols[0]`, which raises `IndexError` on a table with no
columns: that is the `.error ()` branch.  `df[first_col]` is the first
column's cells. -/
def find_sku_columns (t : Table) (explicit_cols : List String) (rxMatch : String → Bool) :
    Except Unit (List String) :=
  let cols := tableNames t
  if explicit_cols ≠ [] then
    let wanted := explicit_cols.map (fun c => pyLower (pyStrip c))
    .ok (cols.filter (fun c => pyLower c ∈ wanted))
  else
    let candidates := cols.filter rxMatch
    if candidates.isEmpty then
      match t.cols.head? with
      | none => .error ()
      | some fc =>
        let sample := ((fc.2.filterMap id).take 50)
        if 2 * (sample.filter containsAlnum).length > sample.length
        then .ok (dedupCI [pyStrip fc.1])
        else .ok (dedupCI [])
    else .ok (dedupCI candidates)

/-- One normalized occurrence (a row of `details_df`). -/
structure Record where
  sku : String
  file : String
  sheet : String
  col : String
  row : Option Nat
  deriving DecidableEq, Repr

/-- Characters after the last `'/'` (accumulator holds the current segment
reversed). -/
def basenameGo (acc : List Char) : List Char → List Char
  | [] => acc.reverse
  | c :: rest => if c = '/' then basenameGo [] rest else basenameGo (c :: acc) rest

/-- `os.path.basename`: the part of the path after its last `'/'`. -/
def basename (p : String) : String := String.mk (basenameGo [] p.toList)

/-- A workbook source as the reader collaborator presents it: either named
tables, or a read failure with its message. -/
inductive WbSource where
  | good (path : String) (sheets : List (String × Table))
  | bad (path : String) (msg : String)
  deriving DecidableEq, Repr

/-- The path of a source. -/
def WbSource.path : WbSource → String
  | .good p _ => p
  | .bad p _ => p

/-- Workbook display name used in records. -/
def WbSource.display (src : WbSource) : String := basename src.path

/-- Python `d[k] = v` on an insertion-ordered dict held as a pair list. -/
def dictUpd {α β : Type} [DecidableEq α] (d : List (α × β)) (k : α) (v : β) :
    List (α × β) :=
  if d.any (fun e => decide (e.1 = k)) then
    d.map (fun e => if e.1 = k then (k, v) else e)
  else d ++ [(k, v)]

/-- Keys of a dict. -/
def dictKeys {α β : Type} (d : List (α × β)) : List α := d.map (fun e => e.1)

/-- The accumulated outputs of `analyze`: `details_rows`, `read_errors`,
`sku_col_map` (the presence matrices are derived from `details`). -/
structure AnalyzeOut where
  details : List Record
  read_errors : List (String × String)
  sku_col_map : List ((String × String) × List String)
  deriving DecidableEq, Repr

/-- Column cells by (already stripped) name; first match, empty if absent. -/
def lookupCol (t : Table) (name : String) : List (Option String) :=
  ((t.cols.find? (fun c => decide (c.1 = name))).map (fun c => c.2)).getD []

/-- Strip all column names (`df.columns = [str(c).strip() ...]`). -/
def stripTable (t : Table) : Table :=
  ⟨t.cols.map (fun c => (pyStrip c.1, c.2))⟩

/-- The records one detected column contributes: normalize every cell, keep
present values, row number = 0-based position + 2. -/
def colRecords (base sheet col : String) (cells : List (Option String)) : List Record :=
  (cells.map normCell).enum.filterMap
    (fun ic => ic.2.map (fun sku => Record.mk sku base sheet col (some (ic.1 + 2))))

/-- The per-sheet body of `analyze` (lines 104-123): skip empty tables, strip
column names, detect SKU columns, and collect records per detected column.
Returns the new records and, when the sheet is kept, its detected columns. -/
def tableScan (base sheet : String) (ex : List String) (rxMatch : String → Bool)
    (t : Table) : Except Unit (List Record × Option (List String)) :=
  if t.isEmpty then .ok ([], none)
  else
    let t1 := stripTable t
    match find_sku_columns t1 ex rxMatch with
    | .error e => .error e
    | .ok cols =>
        if cols.isEmpty then .ok ([], none)
        else
          .ok (cols.flatMap (fun col => colRecords base sheet col (lookupCol t1 col)),
               some cols)

/-- Accumulating one sheet's scan results into the `analyze` accumulators. -/
def stepSheet (base : String) (ex : List String) (rxMatch : String → Bool)
    (acc : AnalyzeOut) (sh : String × Table) : Except Unit AnalyzeOut :=
  (tableScan base sh.1 ex rxMatch sh.2).map
    (fun rc =>
      { acc with
        details := acc.details ++ rc.1,
        sku_col_map :=
          match rc.2 with
          | some cols => dictUpd acc.sku_col_map (base, sh.1) cols
          | none => acc.sku_col_map })

/-- Processing one workbook source inside `analyze`'s main loop: a failing
read appends one `read_errors` entry and moves on; a readable workbook folds
`stepSheet` over its sheets. -/
def stepSource (ex : List String) (rxMatch : String → Bool)
    (st : AnalyzeOut) (src : WbSource) : Except Unit AnalyzeOut :=
  match src with
  | .bad p msg =>
      .ok { st with read_errors := dictUpd st.read_errors p ("Failed to read: " ++ msg) }
  | .good p sheets =>
      sheets.foldlM (stepSheet (basename p) ex rxMatch) st

/-- `analyze` (core.py lines 91-141): fold all sources from empty
accumulators.  The presence matrices of the source are derived views of
`details` (see `presenceCount` etc.). -/
def analyze (sources : List WbSource) (ex : List String) (rxMatch : String → Bool) :
    Except Unit AnalyzeOut :=
  sources.foldlM (stepSource ex rxMatch) ⟨[], [], []⟩

/-- `presence_counts.loc[sku, file]`: occurrences of `sku` in `file`
(`pd.crosstab(details_df["SKU"], details_df["File"])`). -/
def presenceCount (recs : List Record) (sku file : String) : Nat :=
  (recs.filter (fun r => r.sku = sku ∧ r.file = file)).length

/-- The row labels of the presence matrix: the distinct SKUs of the records. -/
def presenceKeys (recs : List Record) : List String :=
  uniq (recs.map (fun r => r.sku))

/-- The column labels of the presence matrix: the distinct files of the
records. -/
def presenceFiles (recs : List Record) : List String :=
  uniq (recs.map (fun r => r.file))

/-- `presence_bool["WorkbooksCount"]` for one SKU: number of workbook columns
with a positive count (`(presence_counts > 0).sum(axis=1)`). -/
def workbooksCount (recs : List Record) (sku : String) : Nat :=
  ((presenceFiles recs).filter (fun f => 0 < presenceCount recs sku f)).length

/-- The duplicate-SKU selection of `write_report` (lines 158-167) on a
non-empty record set (where `presence_bool` carries `WorkbooksCount`):
cross-workbook-only keeps SKUs with `WorkbooksCount > 1`, otherwise every row
of the presence matrix is kept. -/
def dupIndex (recs : List Record) (only_across_workbooks : Bool) : List String :=
  if only_across_workbooks then
    (presenceKeys recs).filter (fun s => 1 < workbooksCount recs s)
  else presenceKeys recs

/-- Modelled from the words of the quote-stripping clause of the spec (§4.1
as quoted by the claim): remove one leading/trailing quote pair only when
both ends carry the same quote character, and remove at most one such pair.
This is the claim's reading, to be compared against the source's
`strip('"').strip("'")`. -/
def specStripOnePair (s : String) : String :=
  match s.toList with
  | [] => s
  | c :: rest =>
      if (c = '"' ∨ c = '\x27') ∧ rest ≠ [] ∧ rest.getLast? = some c
      then String.mk rest.dropLast
      else s

/-- A string wrapped in `k1` leading and `k2` trailing double quotes. -/
def mkQuoted (k1 : Nat) (s : String) (k2 : Nat) : String :=
  String.mk (List.replicate k1 '"' ++ s.toList ++ List.replicate k2 '"')

/-! Concrete data used by witnesses: the SKU `"D"` occurs twice in workbook
`A.xlsx` only, the SKU `"E"` occurs once each in `A.xlsx` and `B.xlsx`. -/

/-- Record list of the two-workbook demonstration scenario. -/
def demoRecs : List Record :=
  [⟨"D", "A.xlsx", "s1", "SKU", some 2⟩,
   ⟨"D", "A.xlsx", "s1", "SKU", some 3⟩,
   ⟨"E", "A.xlsx", "s1", "SKU", some 4⟩,
   ⟨"E", "B.xlsx", "s1", "SKU", some 2⟩]

/-- Demonstration sources: one readable workbook and one failing read. -/
def demoSources : List WbSource :=
  [.good "W1.xlsx" [("s1", ⟨[("SKU", [some "A1", some "A1"])]⟩)],
   .bad "W2.xlsx" "boom"]

/-- Column-name matcher used in witnesses: the compiled pattern set matches
exactly the name "SKU". -/
def demoRx : String → Bool := fun c => c = "SKU"

/-- The value of `analyze demoSources [] demoRx`. -/
def demoOut : AnalyzeOut :=
  ⟨[⟨"A1", "W1.xlsx", "s1", "SKU", some 2⟩, ⟨"A1", "W1.xlsx", "s1", "SKU", some 3⟩],
   [("W2.xlsx", "Failed to read: boom")],
   [(("W1.xlsx", "s1"), ["SKU"])]⟩

/-! ### Helper lemmas -/

theorem dedupByAux_sublist (key : String → String) (seen l) :
    (dedupByAux key seen l).Sublist l := by
  induction l generalizing seen with
  | nil => simp [dedupByAux]
  | cons c rest ih =>
      by_cases hc : key c ∈ seen
      · simp only [dedupByAux, if_pos hc]
        exact (ih seen).cons c
      · simp only [dedupByAux, if_neg hc]
        exact (ih (key c :: seen)).cons₂ c

theorem mem_dedupByAux_id {seen l : List String} {a : String} :
    a ∈ dedupByAux (fun c => c) seen l ↔ a ∈ l ∧ a ∉ seen := by
  induction l generalizing seen with
  | nil => simp [dedupByAux]
  | cons c rest ih =>
      by_cases hc : c ∈ seen
      · simp only [dedupByAux, if_pos hc, ih]
        constructor
        · rintro ⟨h1, h2⟩
          exact ⟨List.mem_cons_of_mem _ h1, h2⟩
        · rintro ⟨h1, h2⟩
          rcases List.mem_cons.mp h1 with rfl | h1
          · exact absurd hc h2
          · exact ⟨h1, h2⟩
      · simp only [dedupByAux, if_neg hc]
        constructor
        · intro h
          rcases List.mem_cons.mp h with rfl | h
          · exact ⟨List.mem_cons_self _ _, hc⟩
          · obtain ⟨h1, h2⟩ := ih.mp h
            exact ⟨List.mem_cons_of_mem _ h1,
                   fun hs => h2 (List.mem_cons_of_mem _ hs)⟩
        · rintro ⟨h1, h2⟩
          rcases List.mem_cons.mp h1 with rfl | h1
          · exact List.mem_cons_self _ _
          · by_cases hac : a = c
            · subst hac
              exact List.mem_cons_self _ _
            · refine List.mem_cons_of_mem _ (ih.mpr ⟨h1, ?_⟩)
              intro hs
              rcases List.mem_cons.mp hs with h | h
              · exact hac h
              · exact h2 h

theorem mem_uniq {l : List String} {a : String} : a ∈ uniq l ↔ a ∈ l := by
  simp [uniq, mem_dedupByAux_id]

theorem dedupByAux_key_nodup (key : String → String) (seen l) :
    ((dedupByAux key seen l).map key).Nodup ∧
      ∀ a ∈ dedupByAux key seen l, key a ∉ seen := by
  induction l generalizing seen with
  | nil => simp [dedupByAux]
  | cons c rest ih =>
      by_cases hc : key c ∈ seen
      · simp only [dedupByAux, if_pos hc]
        exact ih seen
      · simp only [dedupByAux, if_neg hc, List.map_cons, List.nodup_cons]
        obtain ⟨hnd, hout⟩ := ih (key c :: seen)
        refine ⟨⟨?_, hnd⟩, ?_⟩
        · intro hmem
          obtain ⟨a, ha, hkey⟩ := List.mem_map.mp hmem
          exact hout a ha (hkey ▸ List.mem_cons_self _ _)
        · intro a ha
          rcases List.mem_cons.mp ha with rfl | ha
          · exact hc
          · exact fun hs => hout a ha (List.mem_cons_of_mem _ hs)

theorem uniq_nodup (l : List String) : (uniq l).Nodup := by
  have h := (dedupByAux_key_nodup (fun c => c) [] l).1
  simpa using h

theorem mem_presenceKeys {recs : List Record} {sku : String} :
    sku ∈ presenceKeys recs ↔ ∃ r ∈ recs, r.sku = sku := by
  simp only [presenceKeys, mem_uniq, List.mem_map]

theorem presenceCount_pos {recs : List Record} {sku file : String} :
    0 < presenceCount recs sku file ↔ ∃ r ∈ recs, r.sku = sku ∧ r.file = file := by
  simp only [presenceCount, List.length_pos_iff_exists_mem]
  constructor
  · rintro ⟨r, hr⟩
    have := List.mem_filter.mp hr
    refine ⟨r, this.1, ?_⟩
    simpa using this.2
  · rintro ⟨r, hr, h1, h2⟩
    exact ⟨r, List.mem_filter.mpr ⟨hr, by simp [h1, h2]⟩⟩

theorem workbooksCount_pos_sku {recs : List Record} {sku : String}
    (h : 0 < workbooksCount recs sku) : sku ∈ presenceKeys recs := by
  obtain ⟨f, hf⟩ := List.length_pos_iff_exists_mem.mp h
  have hmem := List.mem_filter.mp hf
  have hcnt : 0 < presenceCount recs sku f := by simpa using hmem.2
  obtain ⟨r, hr, h1, _⟩ := presenceCount_pos.mp hcnt
  exact mem_presenceKeys.mpr ⟨r, hr, h1⟩

theorem workbooksCount_pos_of_mem {recs : List Record} {sku : String}
    (h : sku ∈ presenceKeys recs) : 1 ≤ workbooksCount recs sku := by
  obtain ⟨r, hr, hsku⟩ := mem_presenceKeys.mp h
  have hfile : r.file ∈ presenceFiles recs := by
    simp only [presenceFiles, mem_uniq, List.mem_map]
    exact ⟨r, hr, rfl⟩
  have hcnt : 0 < presenceCount recs sku r.file :=
    presenceCount_pos.mpr ⟨r, hr, hsku, rfl⟩
  have : r.file ∈ (presenceFiles recs).filter
      (fun f => 0 < presenceCount recs sku f) :=
    List.mem_filter.mpr ⟨hfile, by simpa using hcnt⟩
  exact List.length_pos_iff_exists_mem.mpr ⟨r.file, this⟩

/-! ### Claim theorems -/

/-- C1: with `includeWithinWorkbook` false (`only_across_workbooks` true), a
SKU is selected into the duplicate set iff its distinct-workbook-count
(`WorkbooksCount`, the number of workbooks with occurrence count > 0) is
strictly greater than 1. -/
theorem c1_cross_workbook_selection (recs : List Record) (_hne : recs ≠ [])
    (sku : String) :
    sku ∈ dupIndex recs true ↔ 1 < workbooksCount recs sku := by
  have hd : dupIndex recs true =
      (presenceKeys recs).filter (fun s => 1 < workbooksCount recs s) := rfl
  rw [hd, List.mem_filter]
  simp only [decide_eq_true_eq]
  constructor
  · exact fun h => h.2
  · intro h
    exact ⟨workbooksCount_pos_sku (Nat.lt_of_lt_of_le Nat.zero_lt_one h.le), h⟩

/-- Witness for C1 on the demonstration records: `"D"` (twice in one workbook
only) is excluded, `"E"` (once each in two workbooks) is included. -/
theorem c1_cross_workbook_selection_witness :
    "D" ∉ dupIndex demoRecs true ∧ "E" ∈ dupIndex demoRecs true ∧
      ("E" ∈ dupIndex demoRecs true ↔ 1 < workbooksCount demoRecs "E") :=
  ⟨by decide, by decide, c1_cross_workbook_selection demoRecs (by decide) "E"⟩

/-- C2: with `includeWithinWorkbook` true (`only_across_workbooks` false),
every SKU of the presence matrix qualifies, and each such SKU indeed has
distinct-workbook-count ≥ 1; no within-workbook multiplicity filter exists. -/
theorem c2_include_within_selects_all (recs : List Record) (_hne : recs ≠ []) :
    dupIndex recs false = presenceKeys recs ∧
      ∀ sku, sku ∈ presenceKeys recs → 1 ≤ workbooksCount recs sku := by
  refine ⟨rfl, ?_⟩
  intro sku hsku
  exact workbooksCount_pos_of_mem hsku

/-- Witness for C2 on the demonstration records. -/
theorem c2_include_within_selects_all_witness :
    dupIndex demoRecs false = presenceKeys demoRecs ∧
      1 ≤ workbooksCount demoRecs "D" :=
  ⟨(c2_include_within_selects_all demoRecs (by decide)).1,
   (c2_include_within_selects_all demoRecs (by decide)).2 "D" (by decide)⟩

theorem dedupCI_sublist (l : List String) : (dedupCI l).Sublist l :=
  dedupByAux_sublist pyLower [] l

theorem dedupCI_lower_nodup (l : List String) : ((dedupCI l).map pyLower).Nodup :=
  (dedupByAux_key_nodup pyLower [] l).1

theorem dedupCI_singleton (s : String) : dedupCI [s] = [s] := by
  simp [dedupCI, dedupByAux]

/-- On a table with at least one column the detector never raises. -/
theorem find_sku_columns_ok (t : Table) (ex : List String) (rx : String → Bool)
    (hne : t.cols ≠ []) : (find_sku_columns t ex rx).isOk = true := by
  obtain ⟨cols⟩ := t
  cases cols with
  | nil => exact absurd rfl hne
  | cons fc tl =>
      simp only [find_sku_columns, tableNames]
      split
      · rfl
      · split
        · simp only [List.map_cons, List.head?_cons]
          split <;> rfl
        · rfl

/-- `tableScan` never raises: empty tables are skipped before the detector
runs, and kept tables have at least one column. -/
theorem tableScan_ok (base sheet : String) (ex : List String) (rx : String → Bool)
    (t : Table) : (tableScan base sheet ex rx t).isOk = true := by
  simp only [tableScan]
  split
  · rfl
  · rename_i hemp
    have hne : (stripTable t).cols ≠ [] := by
      intro hnil
      apply hemp
      have : t.cols = [] := by
        have := congrArg List.length hnil
        simpa [stripTable] using List.map_eq_nil_iff.mp hnil
      simp [Table.isEmpty, this]
    have hok := find_sku_columns_ok (stripTable t) ex rx hne
    cases hf : find_sku_columns (stripTable t) ex rx with
    | error e =>
        rw [hf] at hok
        simp [Except.isOk, Except.toBool] at hok
    | ok cols =>
        simp only [hf]
        split <;> rfl

theorem stepSheet_ok (base : String) (ex : List String) (rx : String → Bool)
    (acc : AnalyzeOut) (sh : String × Table) :
    (stepSheet base ex rx acc sh).isOk = true := by
  simp only [stepSheet]
  have h := tableScan_ok base sh.1 ex rx sh.2
  cases hf : tableScan base sh.1 ex rx sh.2 with
  | error e => rw [hf] at h; simp [Except.isOk, Except.toBool] at h
  | ok rc => rfl

theorem sheetsFold_ok (base : String) (ex : List String) (rx : String → Bool)
    (sheets : List (String × Table)) (st : AnalyzeOut) :
    (sheets.foldlM (stepSheet base ex rx) st).isOk = true := by
  induction sheets generalizing st with
  | nil => rfl
  | cons sh rest ih =>
      rw [List.foldlM_cons]
      have h := stepSheet_ok base ex rx st sh
      cases hs : stepSheet base ex rx st sh with
      | error e => rw [hs] at h; simp [Except.isOk, Except.toBool] at h
      | ok st1 =>
          have hbind : (Except.ok st1 >>= fun s => rest.foldlM (stepSheet base ex rx) s) =
              rest.foldlM (stepSheet base ex rx) st1 := rfl
          rw [hbind]
          exact ih st1

theorem stepSource_ok (ex : List String) (rx : String → Bool)
    (st : AnalyzeOut) (src : WbSource) : (stepSource ex rx st src).isOk = true := by
  cases src with
  | bad p msg => rfl
  | good p sheets => exact sheetsFold_ok (basename p) ex rx sheets st

theorem sourcesFold_ok (ex : List String) (rx : String → Bool)
    (l : List WbSource) (st : AnalyzeOut) :
    (l.foldlM (stepSource ex rx) st).isOk = true := by
  induction l generalizing st with
  | nil => rfl
  | cons src rest ih =>
      rw [List.foldlM_cons]
      have h := stepSource_ok ex rx st src
      cases hs : stepSource ex rx st src with
      | error e => rw [hs] at h; simp [Except.isOk, Except.toBool] at h
      | ok st1 =>
          have hbind : (Except.ok st1 >>= fun s => rest.foldlM (stepSource ex rx) s) =
              rest.foldlM (stepSource ex rx) st1 := rfl
          rw [hbind]
          exact ih st1

/-- C10: the fallback's first-column read is safe whenever the table has a
column; since `analyze` skips empty tables (`df.empty`) before calling the
detector, `analyze` never propagates the out-of-bounds error for any input;
calling the detector directly on a zero-column table without explicit names
is the unguarded edge case and raises. -/
theorem c10_first_column_access_safety :
    (∀ (t : Table) (ex : List String) (rx : String → Bool),
        t.cols ≠ [] → (find_sku_columns t ex rx).isOk = true) ∧
    (∀ (sources : List WbSource) (ex : List String) (rx : String → Bool),
        (analyze sources ex rx).isOk = true) ∧
    find_sku_columns ⟨[]⟩ [] demoRx = .error () :=
  ⟨fun t ex rx h => find_sku_columns_ok t ex rx h,
   fun sources ex rx => sourcesFold_ok ex rx sources ⟨[], [], []⟩,
   rfl⟩

/-- Witness for C10: a one-column table is detected without error, and the
demonstration run (including an unreadable workbook) completes. -/
theorem c10_first_column_access_safety_witness :
    (find_sku_columns ⟨[("SKU", [some "A1"])]⟩ [] demoRx).isOk = true ∧
      (analyze demoSources [] demoRx).isOk = true :=
  ⟨c10_first_column_access_safety.1 ⟨[("SKU", [some "A1"])]⟩ [] demoRx (by decide),
   c10_first_column_access_safety.2.1 demoSources [] demoRx⟩

/-- C7: with no explicit names and no pattern match, the detector falls back
to the first column: sample = up to 50 non-absent values, selected as the
single detected column exactly when more than half the sample contains an
alphanumeric character (an empty sample never qualifies). -/
theorem c7_fallback_heuristic (nm : String) (vals : List (Option String))
    (rest : List (String × List (Option String))) (rx : String → Bool)
    (hzero : ∀ c ∈ tableNames ⟨(nm, vals) :: rest⟩, rx c = false) :
    find_sku_columns ⟨(nm, vals) :: rest⟩ [] rx =
      .ok (if 2 * (((vals.filterMap id).take 50).filter containsAlnum).length >
             ((vals.filterMap id).take 50).length
           then [pyStrip nm] else []) := by
  have hcand : (tableNames ⟨(nm, vals) :: rest⟩).filter rx = [] :=
    List.filter_eq_nil_iff.mpr (fun c hc => by simp [hzero c hc])
  simp only [find_sku_columns]
  rw [if_neg (by simp)]
  rw [hcand]
  simp only [List.isEmpty_nil, if_true, List.head?_cons]
  by_cases hq : 2 * (((vals.filterMap id).take 50).filter containsAlnum).length >
      ((vals.filterMap id).take 50).length
  · rw [if_pos hq, if_pos hq, dedupCI_singleton]
  · rw [if_neg hq, if_neg hq]
    rfl

/-- Witness for C7: a lone "Description" column with mostly alphanumeric
values is selected by the fallback. -/
theorem c7_fallback_heuristic_witness :
    find_sku_columns ⟨[("Description", [some "A1", some "B2", none, some "--"])]⟩ [] demoRx =
      .ok (if 2 * ((([some "A1", some "B2", none,
                     some "--"].filterMap id).take 50).filter containsAlnum).length >
             (([some "A1", some "B2", none, some "--"].filterMap id).take 50).length
           then [pyStrip "Description"] else []) :=
  c7_fallback_heuristic "Description" [some "A1", some "B2", none, some "--"] [] demoRx
    (by decide)

/-- Counterexample to C8: in explicit-names mode `find_sku_columns` returns
early, skipping the case-insensitive de-duplication, so a table with columns
"SKU" and "sku" and explicit name "sku" yields both — two case-insensitively
equal names in the result. -/
theorem c8_counterexample :
    find_sku_columns ⟨[("SKU", [some "1"]), ("sku", [some "2"])]⟩ ["sku"]
        (fun _ => false) = .ok ["SKU", "sku"] ∧
      pyLower "SKU" = pyLower "sku" :=
  ⟨by decide, by decide⟩

/-- C8 as amended: the detector's result always preserves first-seen table
order (it is a sublist of the trimmed column list), and in pattern/fallback
mode (no explicit names) it is case-insensitively duplicate-free; explicit
mode performs no de-duplication. -/
theorem c8_order_and_dedup (t : Table) (ex : List String) (rx : String → Bool)
    (l : List String) (h : find_sku_columns t ex rx = .ok l) :
    l.Sublist (tableNames t) ∧ (ex = [] → (l.map pyLower).Nodup) := by
  simp only [find_sku_columns] at h
  split at h
  · rename_i hex
    cases h
    exact ⟨List.filter_sublist _, fun he => absurd he hex⟩
  · rename_i hex
    split at h
    · split at h
      · simp at h
      · rename_i fc hfc
        have hcols : [pyStrip fc.1].Sublist (tableNames t) := by
          cases hc : t.cols with
          | nil => rw [hc] at hfc; simp at hfc
          | cons c tl =>
              rw [hc] at hfc
              simp only [List.head?_cons, Option.some.injEq] at hfc
              subst hfc
              simp only [tableNames, hc, List.map_cons]
              exact (List.nil_sublist _).cons₂ _
        split at h
        · cases h
          exact ⟨(dedupCI_sublist _).trans hcols, fun _ => dedupCI_lower_nodup _⟩
        · cases h
          exact ⟨List.nil_sublist _, fun _ => dedupCI_lower_nodup _⟩
    · cases h
      exact ⟨(dedupCI_sublist _).trans (List.filter_sublist _),
             fun _ => dedupCI_lower_nodup _⟩

/-- Witness for C8's amended statement, on a pattern match hitting both "SKU"
and "sku" (the result keeps only the first). -/
theorem c8_order_and_dedup_witness :
    (["SKU"] : List String).Sublist
        (tableNames ⟨[("SKU", [some "1"]), ("sku", [some "2"])]⟩) ∧
      (([] : List String) = [] → ((["SKU"] : List String).map pyLower).Nodup) :=
  c8_order_and_dedup ⟨[("SKU", [some "1"]), ("sku", [some "2"])]⟩ []
    (fun c => c = "SKU" || c = "sku") ["SKU"] (by decide)

theorem mem_presenceFiles {recs : List Record} {f : String} :
    f ∈ presenceFiles recs ↔ ∃ r ∈ recs, r.file = f := by
  simp only [presenceFiles, mem_uniq, List.mem_map]

/-- Every record a column scan produces carries the workbook's basename. -/
theorem colRecords_file {base sheet col : String} {cells : List (Option String)}
    {r : Record} (h : r ∈ colRecords base sheet col cells) : r.file = base := by
  simp only [colRecords, List.mem_filterMap] at h
  obtain ⟨ic, _, hmap⟩ := h
  obtain ⟨sku, _, hr⟩ := Option.map_eq_some'.mp hmap
  rw [← hr]

theorem tableScan_details_file {base sheet : String} {ex : List String}
    {rx : String → Bool} {t : Table} {rc : List Record × Option (List String)}
    (h : tableScan base sheet ex rx t = .ok rc) :
    ∀ r ∈ rc.1, r.file = base := by
  simp only [tableScan] at h
  split at h
  · cases h
    simp
  · split at h
    · simp at h
    · split at h
      · cases h
        simp
      · cases h
        intro r hr
        simp only [List.mem_flatMap] at hr
        obtain ⟨col, _, hcol⟩ := hr
        exact colRecords_file hcol

/-- One sheet step: records grow only by records of this workbook, and the
read-error map is untouched. -/
theorem stepSheet_spec {base : String} {ex : List String} {rx : String → Bool}
    {acc acc' : AnalyzeOut} {sh : String × Table}
    (h : stepSheet base ex rx acc sh = .ok acc') :
    (∀ r ∈ acc'.details, r ∈ acc.details ∨ r.file = base) ∧
      acc'.read_errors = acc.read_errors := by
  simp only [stepSheet] at h
  cases hf : tableScan base sh.1 ex rx sh.2 with
  | error e => rw [hf] at h; simp [Except.map] at h
  | ok rc =>
      rw [hf] at h
      simp only [Except.map] at h
      cases h
      refine ⟨?_, rfl⟩
      intro r hr
      rcases List.mem_append.mp hr with hr | hr
      · exact Or.inl hr
      · exact Or.inr (tableScan_details_file hf r hr)

theorem sheetsFold_spec {base : String} {ex : List String} {rx : String → Bool}
    (sheets : List (String × Table)) :
    ∀ {st st' : AnalyzeOut}, sheets.foldlM (stepSheet base ex rx) st = .ok st' →
      (∀ r ∈ st'.details, r ∈ st.details ∨ r.file = base) ∧
        st'.read_errors = st.read_errors := by
  induction sheets with
  | nil =>
      intro st st' h
      cases h
      exact ⟨fun r hr => Or.inl hr, rfl⟩
  | cons sh rest ih =>
      intro st st' h
      rw [List.foldlM_cons] at h
      cases hs : stepSheet base ex rx st sh with
      | error e => rw [hs] at h; simp [Bind.bind, Except.bind] at h
      | ok st1 =>
          rw [hs] at h
          have hbind : (Except.ok st1 >>= fun s => rest.foldlM (stepSheet base ex rx) s) =
              rest.foldlM (stepSheet base ex rx) st1 := rfl
          rw [hbind] at h
          obtain ⟨h1, h2⟩ := stepSheet_spec hs
          obtain ⟨h3, h4⟩ := ih h
          refine ⟨?_, h4.trans h2⟩
          intro r hr
          rcases h3 r hr with hr1 | hr1
          · exact h1 r hr1
          · exact Or.inr hr1

theorem stepSource_details {ex : List String} {rx : String → Bool}
    {st st' : AnalyzeOut} {src : WbSource}
    (h : stepSource ex rx st src = .ok st') :
    ∀ r ∈ st'.details, r ∈ st.details ∨ r.file = src.display := by
  cases src with
  | bad p msg =>
      simp only [stepSource] at h
      cases h
      exact fun r hr => Or.inl hr
  | good p sheets =>
      simp only [stepSource] at h
      exact (sheetsFold_spec sheets h).1

theorem sourcesFold_details {ex : List String} {rx : String → Bool}
    (l : List WbSource) :
    ∀ {st out : AnalyzeOut}, l.foldlM (stepSource ex rx) st = .ok out →
      ∀ r ∈ out.details, r ∈ st.details ∨ r.file ∈ l.map WbSource.display := by
  induction l with
  | nil =>
      intro st out h
      cases h
      exact fun r hr => Or.inl hr
  | cons src rest ih =>
      intro st out h
      rw [List.foldlM_cons] at h
      cases hs : stepSource ex rx st src with
      | error e => rw [hs] at h; simp [Bind.bind, Except.bind] at h
      | ok st1 =>
          rw [hs] at h
          have hbind : (Except.ok st1 >>= fun s => rest.foldlM (stepSource ex rx) s) =
              rest.foldlM (stepSource ex rx) st1 := rfl
          rw [hbind] at h
          intro r hr
          rcases ih h r hr with hr1 | hr1
          · rcases stepSource_details hs r hr1 with hr2 | hr2
            · exact Or.inl hr2
            · exact Or.inr (by simp [hr2])
          · exact Or.inr (List.mem_cons_of_mem _ hr1)

/-- C3: the aggregator's artifacts are mutually consistent — a SKU is a row
of the presence matrix iff some record carries it, and every SKU's
distinct-workbook-count is at most the number of workbooks scanned. -/
theorem c3_artifact_consistency (sources : List WbSource) (ex : List String)
    (rx : String → Bool) (out : AnalyzeOut)
    (h : analyze sources ex rx = .ok out) :
    (∀ sku, sku ∈ presenceKeys out.details ↔ ∃ r ∈ out.details, r.sku = sku) ∧
      ∀ sku, workbooksCount out.details sku ≤ sources.length := by
  refine ⟨fun sku => mem_presenceKeys, ?_⟩
  intro sku
  have hsub : presenceFiles out.details ⊆ sources.map WbSource.display := by
    intro f hf
    obtain ⟨r, hr, hrf⟩ := mem_presenceFiles.mp hf
    rcases sourcesFold_details sources h r hr with h0 | h0
    · simp at h0
    · exact hrf ▸ h0
  have hnd : (presenceFiles out.details).Nodup := uniq_nodup _
  calc workbooksCount out.details sku
      ≤ (presenceFiles out.details).length := List.length_filter_le _ _
    _ ≤ (sources.map WbSource.display).length := (hnd.subperm hsub).length_le
    _ = sources.length := List.length_map _ _

/-- Witness for C3 on the demonstration run (2 workbooks scanned). -/
theorem c3_artifact_consistency_witness :
    ("A1" ∈ presenceKeys demoOut.details ↔ ∃ r ∈ demoOut.details, r.sku = "A1") ∧
      workbooksCount demoOut.details "A1" ≤ 2 :=
  ⟨(c3_artifact_consistency demoSources [] demoRx demoOut (by decide)).1 "A1",
   (c3_artifact_consistency demoSources [] demoRx demoOut (by decide)).2 "A1"⟩

theorem ok_bind {α β : Type} (a : α) (f : α → Except Unit β) :
    (Except.ok a >>= f) = f a := rfl

theorem exists_ok {α : Type} {x : Except Unit α} (h : x.isOk = true) :
    ∃ a, x = .ok a := by
  cases x with
  | error e => simp [Except.isOk, Except.toBool] at h
  | ok a => exact ⟨a, rfl⟩

theorem any_key_eq {β : Type} (d : List (String × β)) (k : String) :
    (d.any (fun e => decide (e.1 = k))) = true ↔ k ∈ dictKeys d := by
  simp only [List.any_eq_true, decide_eq_true_eq, dictKeys, List.mem_map]

theorem dictUpd_fresh {β : Type} (d : List (String × β)) (k : String) (v : β)
    (h : k ∉ dictKeys d) : dictUpd d k v = d ++ [(k, v)] := by
  rw [dictUpd, if_neg]
  intro hany
  exact h ((any_key_eq d k).mp hany)

theorem dictKeys_update_map {β : Type} (d : List (String × β)) (k : String) (v : β) :
    dictKeys (d.map (fun e => if e.1 = k then (k, v) else e)) = dictKeys d := by
  simp only [dictKeys, List.map_map]
  apply List.map_congr_left
  intro e _
  by_cases he : e.1 = k
  · simp [he]
  · simp [he]

theorem dictKeys_dictUpd {β : Type} (d : List (String × β)) (k : String) (v : β)
    (k' : String) (h : k' ∈ dictKeys (dictUpd d k v)) :
    k' ∈ dictKeys d ∨ k' = k := by
  rw [dictUpd] at h
  split at h
  · rw [dictKeys_update_map] at h
    exact Or.inl h
  · simp only [dictKeys, List.map_append] at h
    rcases List.mem_append.mp h with h | h
    · exact Or.inl h
    · simp at h
      exact Or.inr h

theorem stepSource_errs_keys {ex : List String} {rx : String → Bool}
    {st st' : AnalyzeOut} {src : WbSource}
    (h : stepSource ex rx st src = .ok st') :
    ∀ k ∈ dictKeys st'.read_errors, k ∈ dictKeys st.read_errors ∨ k = src.path := by
  cases src with
  | bad p msg =>
      simp only [stepSource] at h
      cases h
      intro k hk
      exact dictKeys_dictUpd _ _ _ _ hk
  | good p sheets =>
      simp only [stepSource] at h
      intro k hk
      rw [(sheetsFold_spec sheets h).2] at hk
      exact Or.inl hk

theorem sourcesFold_errs_keys {ex : List String} {rx : String → Bool}
    (l : List WbSource) :
    ∀ {st out : AnalyzeOut}, l.foldlM (stepSource ex rx) st = .ok out →
      ∀ k ∈ dictKeys out.read_errors,
        k ∈ dictKeys st.read_errors ∨ k ∈ l.map WbSource.path := by
  induction l with
  | nil =>
      intro st out h
      cases h
      exact fun k hk => Or.inl hk
  | cons src rest ih =>
      intro st out h
      rw [List.foldlM_cons] at h
      cases hs : stepSource ex rx st src with
      | error e => rw [hs] at h; simp [Bind.bind, Except.bind] at h
      | ok st1 =>
          rw [hs, ok_bind] at h
          intro k hk
          rcases ih h k hk with hk1 | hk1
          · rcases stepSource_errs_keys hs k hk1 with hk2 | hk2
            · exact Or.inl hk2
            · exact Or.inr (by simp [hk2])
          · exact Or.inr (List.mem_cons_of_mem _ hk1)

/-- `stepSheet` never reads or writes `read_errors`. -/
theorem stepSheet_errs_param (base : String) (ex : List String) (rx : String → Bool)
    (acc : AnalyzeOut) (e : List (String × String)) (sh : String × Table) :
    stepSheet base ex rx { acc with read_errors := e } sh =
      (stepSheet base ex rx acc sh).map (fun s => { s with read_errors := e }) := by
  simp only [stepSheet]
  cases tableScan base sh.1 ex rx sh.2 <;> rfl

theorem sheetsFold_errs_param (base : String) (ex : List String) (rx : String → Bool)
    (sheets : List (String × Table)) :
    ∀ (st : AnalyzeOut) (e : List (String × String)),
      sheets.foldlM (stepSheet base ex rx) { st with read_errors := e } =
        (sheets.foldlM (stepSheet base ex rx) st).map
          (fun s => { s with read_errors := e }) := by
  induction sheets with
  | nil => intro st e; rfl
  | cons sh rest ih =>
      intro st e
      rw [List.foldlM_cons, List.foldlM_cons, stepSheet_errs_param]
      cases hs : stepSheet base ex rx st sh with
      | error er => rfl
      | ok st1 =>
          have hL : ((Except.ok st1).map (fun s => { s with read_errors := e }) >>=
              fun s => rest.foldlM (stepSheet base ex rx) s) =
                rest.foldlM (stepSheet base ex rx) { st1 with read_errors := e } := rfl
          rw [hL, ok_bind, ih]

theorem any_key_insert {β : Type} (A B : List (String × β)) (pm : String × β)
    (q : String) (hqp : pm.1 ≠ q) :
    ((A ++ pm :: B).any (fun e => decide (e.1 = q))) =
      ((A ++ B).any (fun e => decide (e.1 = q))) := by
  simp [List.any_append, List.any_cons, hqp]

/-- Post-failure invariant: running the remaining sources from a state whose
error map carries one extra fresh entry `(p, m)` changes nothing except that
the entry stays in place. -/
theorem foldPost_insert (ex : List String) (rx : String → Bool) (p m : String) :
    ∀ (post : List WbSource), p ∉ post.map WbSource.path →
    ∀ (d : List Record) (mp : List ((String × String) × List String))
      (A B : List (String × String)), p ∉ dictKeys A → p ∉ dictKeys B →
    ∀ (o1 o2 : AnalyzeOut),
      post.foldlM (stepSource ex rx) ⟨d, A ++ (p, m) :: B, mp⟩ = .ok o1 →
      post.foldlM (stepSource ex rx) ⟨d, A ++ B, mp⟩ = .ok o2 →
      o1.details = o2.details ∧ o1.sku_col_map = o2.sku_col_map ∧
        ∃ A2 B2, o1.read_errors = A2 ++ (p, m) :: B2 ∧ o2.read_errors = A2 ++ B2 ∧
          p ∉ dictKeys A2 ∧ p ∉ dictKeys B2 := by
  intro post
  induction post with
  | nil =>
      intro _ d mp A B hA hB o1 o2 h1 h2
      cases h1
      cases h2
      exact ⟨rfl, rfl, A, B, rfl, rfl, hA, hB⟩
  | cons src rest ih =>
      intro hpp d mp A B hA hB o1 o2 h1 h2
      have hpsrc : p ≠ src.path := by
        intro hcontra
        exact hpp (by simp [hcontra])
      have hprest : p ∉ rest.map WbSource.path := by
        intro hcontra
        exact hpp (List.mem_cons_of_mem _ hcontra)
      rw [List.foldlM_cons] at h1 h2
      cases src with
      | bad q m2 =>
          have hqp : q ≠ p := fun hc => hpsrc (by simp [WbSource.path, hc])
          simp only [stepSource, ok_bind] at h1 h2
          by_cases hq : ((A ++ B).any (fun e => decide (e.1 = q))) = true
          · have hq1 : ((A ++ (p, m) :: B).any (fun e => decide (e.1 = q))) = true := by
              rw [any_key_insert A B (p, m) q (by simpa using Ne.symm hqp)]
              exact hq
            rw [dictUpd, if_pos hq1, List.map_append, List.map_cons] at h1
            rw [dictUpd, if_pos hq, List.map_append] at h2
            have hpm : (if (p, m).1 = q then (q, "Failed to read: " ++ m2)
                else (p, m)) = (p, m) := by
              simp [Ne.symm hqp]
            rw [hpm] at h1
            exact ih hprest d mp _ _
              (by rw [dictKeys_update_map]; exact hA)
              (by rw [dictKeys_update_map]; exact hB) o1 o2 h1 h2
          · rw [dictUpd, if_neg (by
              rw [any_key_insert A B (p, m) q (by simpa using Ne.symm hqp)]
              exact hq)] at h1
            rw [dictUpd, if_neg hq] at h2
            have e1 : (A ++ (p, m) :: B) ++ [(q, "Failed to read: " ++ m2)] =
                A ++ (p, m) :: (B ++ [(q, "Failed to read: " ++ m2)]) := by
              simp
            have e2 : (A ++ B) ++ [(q, "Failed to read: " ++ m2)] =
                A ++ (B ++ [(q, "Failed to read: " ++ m2)]) := by
              simp
            rw [e1] at h1
            rw [e2] at h2
            refine ih hprest d mp A (B ++ [(q, "Failed to read: " ++ m2)]) hA ?_ o1 o2 h1 h2
            simp only [dictKeys, List.map_append, List.mem_append] at hB ⊢
            rintro (hc | hc)
            · exact hB hc
            · simp at hc
              exact hqp hc.symm
      | good q sheets =>
          obtain ⟨s2, hs2⟩ := exists_ok
            (sheetsFold_ok (basename q) ex rx sheets ⟨d, A ++ B, mp⟩)
          have herrs : s2.read_errors = A ++ B := (sheetsFold_spec sheets hs2).2
          simp only [stepSource] at h1 h2
          rw [hs2, ok_bind] at h2
          have hstate : (⟨d, A ++ (p, m) :: B, mp⟩ : AnalyzeOut) =
              { (⟨d, A ++ B, mp⟩ : AnalyzeOut) with read_errors := A ++ (p, m) :: B } := rfl
          rw [hstate, sheetsFold_errs_param, hs2] at h1
          have hmap : ((Except.ok s2).map
              (fun s => { s with read_errors := A ++ (p, m) :: B }) >>=
                fun s => rest.foldlM (stepSource ex rx) s) =
              rest.foldlM (stepSource ex rx) { s2 with read_errors := A ++ (p, m) :: B } := rfl
          rw [hmap] at h1
          obtain ⟨s2d, s2e, s2m⟩ := s2
          simp only at herrs
          subst herrs
          exact ih hprest s2d s2m A B hA hB o1 o2 h1 h2

theorem filter_key_ne_of_fresh {β : Type} (d : List (String × β)) (p : String)
    (h : p ∉ dictKeys d) :
    d.filter (fun e => e.1 ≠ p) = d ∧ d.filter (fun e => e.1 = p) = [] := by
  constructor
  · apply List.filter_eq_self.mpr
    intro e he
    simp only [ne_eq, decide_not, Bool.not_eq_eq_eq_not, Bool.not_true,
      decide_eq_false_iff_not]
    intro hc
    refine h ?_
    show p ∈ d.map (fun e => e.1)
    exact List.mem_map.mpr ⟨e, he, hc⟩
  · apply List.filter_eq_nil_iff.mpr
    intro e he
    simp only [decide_eq_true_eq]
    intro hc
    refine h ?_
    show p ∈ d.map (fun e => e.1)
    exact List.mem_map.mpr ⟨e, he, hc⟩

/-- C9: one failing workbook read contributes exactly one `read_errors` entry
(keyed by that workbook, with a descriptive reason) and changes nothing else:
records, presence counts and detected-column map equal those of the run
without the failing workbook. -/
theorem c9_read_failure_isolation (pre post : List WbSource) (p msg : String)
    (ex : List String) (rx : String → Bool) (out1 out2 : AnalyzeOut)
    (hpre : p ∉ pre.map WbSource.path) (hpost : p ∉ post.map WbSource.path)
    (h1 : analyze (pre ++ .bad p msg :: post) ex rx = .ok out1)
    (h2 : analyze (pre ++ post) ex rx = .ok out2) :
    out1.details = out2.details ∧ out1.sku_col_map = out2.sku_col_map ∧
      (∀ sku file, presenceCount out1.details sku file =
        presenceCount out2.details sku file) ∧
      out1.read_errors.filter (fun e => e.1 ≠ p) = out2.read_errors ∧
      out1.read_errors.filter (fun e => e.1 = p) =
        [(p, "Failed to read: " ++ msg)] := by
  obtain ⟨S, hS⟩ := exists_ok (sourcesFold_ok ex rx pre ⟨[], [], []⟩)
  rw [analyze, List.foldlM_append, hS, ok_bind] at h1 h2
  rw [List.foldlM_cons] at h1
  have hfreshS : p ∉ dictKeys S.read_errors := by
    intro hc
    rcases sourcesFold_errs_keys pre hS p hc with hc1 | hc1
    · simp [dictKeys] at hc1
    · exact hpre hc1
  simp only [stepSource, ok_bind] at h1
  rw [dictUpd_fresh _ _ _ hfreshS] at h1
  obtain ⟨Sd, Se, Sm⟩ := S
  simp only at hfreshS
  have hstate1 : ({ (⟨Sd, Se, Sm⟩ : AnalyzeOut) with
      read_errors := Se ++ [(p, "Failed to read: " ++ msg)] } : AnalyzeOut) =
      ⟨Sd, Se ++ (p, "Failed to read: " ++ msg) :: [], Sm⟩ := rfl
  rw [hstate1] at h1
  have hstate2 : (⟨Sd, Se, Sm⟩ : AnalyzeOut) = ⟨Sd, Se ++ [], Sm⟩ := by simp
  rw [hstate2] at h2
  obtain ⟨hdet, hmap, A2, B2, he1, he2, hA2, hB2⟩ :=
    foldPost_insert ex rx p ("Failed to read: " ++ msg) post hpost Sd Sm Se []
      hfreshS (by simp [dictKeys]) out1 out2 h1 h2
  refine ⟨hdet, hmap, fun sku file => by rw [hdet], ?_, ?_⟩
  · rw [he1, he2, List.filter_append]
    rw [(filter_key_ne_of_fresh A2 p hA2).1]
    have : ((p, "Failed to read: " ++ msg) :: B2).filter (fun e => e.1 ≠ p) =
        B2.filter (fun e => e.1 ≠ p) := by
      simp [List.filter_cons]
    rw [this, (filter_key_ne_of_fresh B2 p hB2).1]
  · rw [he1, List.filter_append]
    rw [(filter_key_ne_of_fresh A2 p hA2).2]
    have : ((p, "Failed to read: " ++ msg) :: B2).filter (fun e => e.1 = p) =
        (p, "Failed to read: " ++ msg) :: B2.filter (fun e => e.1 = p) := by
      simp [List.filter_cons]
    rw [this, (filter_key_ne_of_fresh B2 p hB2).2]
    rfl

/-! ### Normalizer lemmas -/

theorem toList_append (a b : String) : (a ++ b).toList = a.toList ++ b.toList := by
  obtain ⟨la⟩ := a
  obtain ⟨lb⟩ := b
  rfl

theorem mk_toList (s : String) : String.mk s.toList = s := by
  obtain ⟨l⟩ := s
  rfl

theorem dropWhile_eq_self_of_none {p : Char → Bool} {l : List Char}
    (h : ∀ c ∈ l, p c = false) : l.dropWhile p = l := by
  cases l with
  | nil => rfl
  | cons c t =>
      rw [List.dropWhile_cons, if_neg (by simp [h c (List.mem_cons_self c t)])]

theorem pyStripWith_eq_self {p : Char → Bool} {s : String}
    (h : ∀ c ∈ s.toList, p c = false) : pyStripWith p s = s := by
  obtain ⟨l⟩ := s
  have h1 : ∀ c ∈ l, p c = false := h
  show String.mk ((l.dropWhile p).reverse.dropWhile p).reverse = String.mk l
  rw [dropWhile_eq_self_of_none h1]
  rw [dropWhile_eq_self_of_none (fun c hc => h1 c (List.mem_reverse.mp hc))]
  rw [List.reverse_reverse]

theorem collapseGo_eq_self {l : List Char} (h : ∀ c ∈ l, pySpace c = false) :
    ∀ b, collapseGo b l = l := by
  induction l with
  | nil => intro b; rfl
  | cons c t ih =>
      intro b
      have hc := h c (List.mem_cons_self c t)
      rw [show collapseGo b (c :: t) = c :: collapseGo false t from by
        simp [collapseGo, hc]]
      rw [ih (fun x hx => h x (List.mem_cons_of_mem _ hx)) false]

theorem collapseStr_eq_self {s : String} (h : ∀ c ∈ s.toList, pySpace c = false) :
    collapseStr s = s := by
  obtain ⟨l⟩ := s
  have h1 : ∀ c ∈ l, pySpace c = false := h
  show String.mk (collapseGo false l) = String.mk l
  rw [collapseGo_eq_self h1 false]

theorem pyUpper_eq_self {s : String} (h : ∀ c ∈ s.toList, c.toNat < 97) :
    pyUpper s = s := by
  obtain ⟨l⟩ := s
  show String.mk (l.map pyUpperChar) = String.mk l
  have hmap : l.map pyUpperChar = l := by
    conv_rhs => rw [← List.map_id l]
    apply List.map_congr_left
    intro c hc
    simp only [pyUpperChar, id]
    rw [if_neg (by have := h c hc; omega)]
  rw [hmap]

/-- Characters in the code range 45..57 (`'-'`, `'.'`, `'/'`, digits) pass
every stage of the text pipeline unchanged. -/
theorem class_facts {c : Char} (h : 45 ≤ c.toNat ∧ c.toNat ≤ 57) :
    pySpace c = false ∧ decide (c = '"') = false ∧
      decide (c = '\x27') = false ∧ c.toNat < 97 := by
  refine ⟨?_, ?_, ?_, by omega⟩
  · by_contra hcon
    rw [Bool.not_eq_false] at hcon
    simp only [pySpace, Bool.or_eq_true, decide_eq_true_eq] at hcon
    rcases hcon with ((((h1 | h1) | h1) | h1) | h1) | h1 <;>
      (subst h1; exact absurd h (by decide))
  · simp only [decide_eq_false_iff_not]
    intro h1
    subst h1
    exact absurd h (by decide)
  · simp only [decide_eq_false_iff_not]
    intro h1
    subst h1
    exact absurd h (by decide)

/-- When every character of the stripped string lies in code range 45..57,
the whole text pipeline fixes the stripped string. -/
theorem normCore_eq_pyStrip {s : String}
    (h : ∀ c ∈ (pyStrip s).toList, 45 ≤ c.toNat ∧ c.toNat ≤ 57) :
    normCore s = pyStrip s := by
  have hsp : ∀ c ∈ (pyStrip s).toList, pySpace c = false :=
    fun c hc => (class_facts (h c hc)).1
  show pyUpper (pyStripWith (fun c => decide (c = '\x27'))
      (pyStripWith (fun c => decide (c = '"'))
        (pyStripWith pySpace (collapseStr (pyStrip s))))) = pyStrip s
  rw [collapseStr_eq_self hsp]
  rw [show pyStripWith pySpace (pyStrip s) = pyStrip s from pyStripWith_eq_self hsp]
  rw [pyStripWith_eq_self (fun c hc => (class_facts (h c hc)).2.1)]
  rw [pyStripWith_eq_self (fun c hc => (class_facts (h c hc)).2.2.1)]
  exact pyUpper_eq_self (fun c hc => (class_facts (h c hc)).2.2.2)

theorem normCore_eq_self {s : String}
    (h : ∀ c ∈ s.toList, 45 ≤ c.toNat ∧ c.toNat ≤ 57) : normCore s = s := by
  have hps : pyStrip s = s :=
    pyStripWith_eq_self (fun c hc => (class_facts (h c hc)).1)
  have h2 : ∀ c ∈ (pyStrip s).toList, 45 ≤ c.toNat ∧ c.toNat ≤ 57 := by
    rw [hps]
    exact h
  rw [normCore_eq_pyStrip h2, hps]

/-- A string containing a digit is not a sentinel. -/
theorem not_mem_SENTINELS_of_digit {s : String}
    (h : ∃ c ∈ s.toList, asciiDigit c = true) : s ∉ SENTINELS := by
  intro hs
  obtain ⟨c, hc, hd⟩ := h
  simp only [SENTINELS, List.mem_cons, List.not_mem_nil, or_false] at hs
  rcases hs with rfl | rfl | rfl | rfl | rfl | rfl <;>
    (fin_cases hc <;> exact absurd hd (by decide))

theorem splitFirstDot_recombine : ∀ l : List Char,
    l = (splitFirstDot l).1 ++ (splitFirstDot l).2 ∨
      l = (splitFirstDot l).1 ++ '.' :: (splitFirstDot l).2 := by
  intro l
  induction l with
  | nil => exact Or.inl rfl
  | cons c rest ih =>
      by_cases hc : c = '.'
      · subst hc
        right
        simp [splitFirstDot]
      · simp only [splitFirstDot, if_neg hc]
        rcases ih with h | h
        · exact Or.inl (by rw [List.cons_append, ← h])
        · exact Or.inr (by rw [List.cons_append, ← h])

/-- Unfolding `strLooksNumeric`: the digits around the first dot of the
stripped string are nonempty and all ASCII digits. -/
theorem looksNumeric_split {s : String} (h : strLooksNumeric s = true) :
    ((splitFirstDot (pyStrip s).toList).1 ++ (splitFirstDot (pyStrip s).toList).2) ≠ [] ∧
      ∀ c ∈ (splitFirstDot (pyStrip s).toList).1 ++ (splitFirstDot (pyStrip s).toList).2,
        asciiDigit c = true := by
  simp only [strLooksNumeric, pyIsdigit, removeFirstDot, Bool.and_eq_true,
    Bool.not_eq_true', List.isEmpty_iff, List.all_eq_true] at h
  exact ⟨by simpa using h.1, by simpa using h.2⟩

/-- Character facts over the stripped form of a numeric-looking string. -/
theorem looksNumeric_chars {s : String} (h : strLooksNumeric s = true) :
    (∀ c ∈ (pyStrip s).toList, asciiDigit c = true ∨ c = '.') ∧
      ∃ c ∈ (pyStrip s).toList, asciiDigit c = true := by
  obtain ⟨hne, hall⟩ := looksNumeric_split h
  constructor
  · intro c hc
    rcases splitFirstDot_recombine (pyStrip s).toList with heq | heq
    · rw [heq] at hc
      exact Or.inl (hall c hc)
    · rw [heq] at hc
      rcases List.mem_append.mp hc with hc1 | hc1
      · exact Or.inl (hall c (List.mem_append_left _ hc1))
      · rcases List.mem_cons.mp hc1 with rfl | hc2
        · exact Or.inr rfl
        · exact Or.inl (hall c (List.mem_append_right _ hc2))
  · obtain ⟨c, hc⟩ := List.exists_mem_of_ne_nil _ hne
    refine ⟨c, ?_, hall c hc⟩
    rcases splitFirstDot_recombine (pyStrip s).toList with heq | heq
    · rw [heq]
      exact hc
    · rw [heq]
      rcases List.mem_append.mp hc with h1 | h1
      · exact List.mem_append_left _ h1
      · exact List.mem_append_right _ (List.mem_cons_of_mem _ h1)

theorem digitChar_digit : ∀ d, asciiDigit (digitChar d) = true := by
  intro d
  rcases d with _|_|_|_|_|_|_|_|_|d <;> rfl

theorem asciiDigit_bounds {c : Char} (h : asciiDigit c = true) :
    48 ≤ c.toNat ∧ c.toNat ≤ 57 := by
  simpa [asciiDigit, Bool.and_eq_true, decide_eq_true_eq] using h

theorem natDigitsGo_digits : ∀ fuel n, ∀ c ∈ natDigitsGo fuel n, asciiDigit c = true := by
  intro fuel
  induction fuel with
  | zero =>
      intro n c hc
      simp [natDigitsGo] at hc
  | succ f ih =>
      intro n c hc
      simp only [natDigitsGo] at hc
      split at hc
      · rw [List.mem_singleton] at hc
        subst hc
        exact digitChar_digit n
      · rcases List.mem_append.mp hc with h1 | h1
        · exact ih _ c h1
        · rw [List.mem_singleton] at h1
          subst h1
          exact digitChar_digit _

theorem natDigitsGo_ne_nil (fuel n : Nat) (hf : fuel ≠ 0) : natDigitsGo fuel n ≠ [] := by
  cases fuel with
  | zero => exact absurd rfl hf
  | succ f =>
      simp only [natDigitsGo]
      split
      · simp
      · simp

theorem natStr_spec (n : Nat) :
    (natStr n).toList ≠ [] ∧ ∀ c ∈ (natStr n).toList, asciiDigit c = true :=
  ⟨natDigitsGo_ne_nil (n + 1) n (by omega), fun c hc => natDigitsGo_digits (n + 1) n c hc⟩

theorem mem_of_dropTrailingZeros {c : Char} {l : List Char}
    (h : c ∈ dropTrailingZeros l) : c ∈ l := by
  simp only [dropTrailingZeros] at h
  have h1 := List.mem_reverse.mp h
  have h2 := (List.dropWhile_sublist _).subset h1
  exact List.mem_reverse.mp h2

/-- Character classification of the canonical decimal rendering. -/
theorem decCanon_chars {s : String}
    (hdig : ∀ c ∈ (splitFirstDot s.toList).1 ++ (splitFirstDot s.toList).2,
      asciiDigit c = true) :
    (∀ c ∈ (decCanon s).toList, 45 ≤ c.toNat ∧ c.toNat ≤ 57) ∧
      ∃ c ∈ (decCanon s).toList, asciiDigit c = true := by
  have hnat := natStr_spec (natOfDigits (splitFirstDot s.toList).1)
  have hfr : ∀ c ∈ dropTrailingZeros (splitFirstDot s.toList).2, asciiDigit c = true :=
    fun c hc => hdig c (List.mem_append_right _ (mem_of_dropTrailingZeros hc))
  by_cases hf : (dropTrailingZeros (splitFirstDot s.toList).2).isEmpty = true
  · have hdc : decCanon s = natStr (natOfDigits (splitFirstDot s.toList).1) := by
      simp only [decCanon]
      rw [if_pos hf]
    rw [hdc]
    refine ⟨fun c hc => ?_, ?_⟩
    · have := asciiDigit_bounds (hnat.2 c hc)
      omega
    · obtain ⟨c, hc⟩ := List.exists_mem_of_ne_nil _ hnat.1
      exact ⟨c, hc, hnat.2 c hc⟩
  · have hdc : decCanon s = natStr (natOfDigits (splitFirstDot s.toList).1) ++ "." ++
        String.mk (dropTrailingZeros (splitFirstDot s.toList).2) := by
      simp only [decCanon]
      rw [if_neg hf]
    rw [hdc]
    refine ⟨fun c hc => ?_, ?_⟩
    · rw [toList_append, toList_append] at hc
      rcases List.mem_append.mp hc with h1 | h1
      · rcases List.mem_append.mp h1 with h2 | h2
        · have := asciiDigit_bounds (hnat.2 c h2)
          omega
        · have hcd : c = '.' := by simpa using h2
          subst hcd
          decide
      · have := asciiDigit_bounds (hfr c h1)
        omega
    · obtain ⟨c, hc⟩ := List.exists_mem_of_ne_nil _ hnat.1
      refine ⟨c, ?_, hnat.2 c hc⟩
      rw [toList_append, toList_append]
      exact List.mem_append_left _ (List.mem_append_left _ hc)

/-- `normalize_sku` on a numeric-looking string: the guarded coercion block
replaces the value by the canonical decimal of its stripped form, which the
text pipeline then fixes and the sentinel test passes. -/
theorem normalize_sku_num_str {s : String} (h : strLooksNumeric s = true) :
    normalize_sku (Val.str s) = .ok (some (decCanon (pyStrip s))) := by
  obtain ⟨hall, hdig⟩ := decCanon_chars (looksNumeric_split h).2
  simp only [normalize_sku, pdIsna, Bool.false_eq_true, if_false, tryNumeric, h,
    if_true, pyStr]
  rw [normCore_eq_self hall, if_neg (not_mem_SENTINELS_of_digit hdig)]

/-- `normalize_sku` on an integer value yields its decimal text. -/
theorem normalize_sku_int_val (n : Int) :
    normalize_sku (Val.int n) = .ok (some (intStr n)) := by
  have hchars : ∀ c ∈ (intStr n).toList, 45 ≤ c.toNat ∧ c.toNat ≤ 57 := by
    intro c hc
    simp only [intStr] at hc
    split at hc
    · rw [toList_append] at hc
      rcases List.mem_append.mp hc with h1 | h1
      · have hcm : c = '-' := by simpa using h1
        subst hcm
        decide
      · have := asciiDigit_bounds ((natStr_spec _).2 c h1)
        omega
    · have := asciiDigit_bounds ((natStr_spec _).2 c hc)
      omega
  have hdig : ∃ c ∈ (intStr n).toList, asciiDigit c = true := by
    simp only [intStr]
    split
    · rw [toList_append]
      obtain ⟨c, hc⟩ := List.exists_mem_of_ne_nil _ (natStr_spec n.natAbs).1
      exact ⟨c, List.mem_append_right _ hc, (natStr_spec _).2 c hc⟩
    · obtain ⟨c, hc⟩ := List.exists_mem_of_ne_nil _ (natStr_spec n.toNat).1
      exact ⟨c, hc, (natStr_spec _).2 c hc⟩
  simp only [normalize_sku, pdIsna, Bool.false_eq_true, if_false, tryNumeric, pyStr]
  rw [normCore_eq_self hchars, if_neg (not_mem_SENTINELS_of_digit hdig)]

/-- `normalize_sku` on a non-numeric string: the text pipeline runs and the
sentinel test decides between absent and present. -/
theorem normalize_sku_text {s : String} (h : strLooksNumeric s = false) :
    normalize_sku (Val.str s) =
      if normCore s ∈ SENTINELS then .ok none else .ok (some (normCore s)) := by
  simp only [normalize_sku, pdIsna, Bool.false_eq_true, if_false, tryNumeric, h,
    pyStr]

/-- For numeric-looking strings the pipeline form is the stripped string,
which contains a digit and hence is never a sentinel. -/
theorem normCore_of_numeric {s : String} (h : strLooksNumeric s = true) :
    normCore s = pyStrip s ∧ normCore s ∉ SENTINELS := by
  obtain ⟨hall, hdig⟩ := looksNumeric_chars h
  have hbounds : ∀ c ∈ (pyStrip s).toList, 45 ≤ c.toNat ∧ c.toNat ≤ 57 := by
    intro c hc
    rcases hall c hc with h1 | h1
    · have := asciiDigit_bounds h1
      omega
    · subst h1
      decide
  have hnc := normCore_eq_pyStrip hbounds
  refine ⟨hnc, ?_⟩
  rw [hnc]
  exact not_mem_SENTINELS_of_digit hdig

/-- Counterexample to C5: an object whose coercion to text raises makes
`normalize_sku` raise (the `str(val)` call sits outside the `try`), and a
quoted sentinel like `"-"` — which is not textually equal to any sentinel
after trimming alone, case-insensitively — still yields absent because the
sentinel test runs after quote stripping. -/
theorem c5_counterexample :
    normalize_sku Val.uncoercible = .error () ∧
      pyUpper (pyStrip "\"-\"") ∉ SENTINELS ∧
      pyStrip "\"-\"" ≠ "" ∧
      normalize_sku (Val.str "\"-\"") = .ok none :=
  ⟨rfl, by decide, by decide, by decide⟩

/-- C5 as amended: `normalize_sku` never raises on absent, string, or integer
inputs; absent/NaN yields absent, a string whose fully-processed form
(trimmed, whitespace-collapsed, quote-stripped, uppercased) is a sentinel
yields absent, every other string yields a present value, and every integer
yields a present value.  Only a value whose text coercion itself fails
raises. -/
theorem c5_amended_totality :
    (∀ v : Val, v ≠ Val.uncoercible → ∃ r, normalize_sku v = .ok r) ∧
      normalize_sku Val.absent = .ok none ∧
      (∀ s, normCore s ∈ SENTINELS → normalize_sku (Val.str s) = .ok none) ∧
      (∀ s, normCore s ∉ SENTINELS → ∃ t, normalize_sku (Val.str s) = .ok (some t)) ∧
      (∀ n : Int, ∃ t, normalize_sku (Val.int n) = .ok (some t)) := by
  refine ⟨?_, rfl, ?_, ?_, fun n => ⟨intStr n, normalize_sku_int_val n⟩⟩
  · intro v hv
    cases v with
    | absent => exact ⟨none, rfl⟩
    | uncoercible => exact absurd rfl hv
    | int n => exact ⟨some (intStr n), normalize_sku_int_val n⟩
    | str s =>
        cases hnum : strLooksNumeric s with
        | true => exact ⟨some (decCanon (pyStrip s)), normalize_sku_num_str hnum⟩
        | false =>
            by_cases hs : normCore s ∈ SENTINELS
            · exact ⟨none, by rw [normalize_sku_text hnum, if_pos hs]⟩
            · exact ⟨some (normCore s), by rw [normalize_sku_text hnum, if_neg hs]⟩
  · intro s hs
    cases hnum : strLooksNumeric s with
    | true => exact absurd hs (normCore_of_numeric hnum).2
    | false => rw [normalize_sku_text hnum, if_pos hs]
  · intro s hs
    cases hnum : strLooksNumeric s with
    | true => exact ⟨decCanon (pyStrip s), normalize_sku_num_str hnum⟩
    | false => exact ⟨normCore s, by rw [normalize_sku_text hnum, if_neg hs]⟩

/-- Witness for C5's amended statement. -/
theorem c5_amended_totality_witness :
    normalize_sku Val.absent = .ok none ∧
      normalize_sku (Val.str " n/a ") = .ok none ∧
      normalize_sku (Val.str "x1") = .ok (some "X1") :=
  ⟨c5_amended_totality.2.1, c5_amended_totality.2.2.1 " n/a " (by decide), by decide⟩

theorem dropWhile_replicate_append (q : Char) (k : Nat) (l : List Char) :
    (List.replicate k q ++ l).dropWhile (fun c => decide (c = q)) =
      l.dropWhile (fun c => decide (c = q)) := by
  induction k with
  | zero => rfl
  | succ m ih =>
      rw [List.replicate_succ, List.cons_append, List.dropWhile_cons,
        if_pos (by simp)]
      exact ih

/-- Python `strip(q)` on a string wrapped in any numbers of `q` on either
side, whose core has no `q` at all, returns the bare core: unmatched and
repeated quotes are all removed. -/
theorem stripChar_quoted (q : Char) (k1 k2 : Nat) (l : List Char) (hne : l ≠ [])
    (hq : ∀ c ∈ l, c ≠ q) :
    stripChar q (String.mk (List.replicate k1 q ++ l ++ List.replicate k2 q)) =
      String.mk l := by
  obtain ⟨c, t, rfl⟩ : ∃ c t, l = c :: t := by
    cases l with
    | nil => exact absurd rfl hne
    | cons c t => exact ⟨c, t, rfl⟩
  simp only [stripChar, pyStripWith, dropEnd]
  congr 1
  have hall : ∀ x ∈ t.reverse ++ [c], (fun c0 => decide (c0 = q)) x = false := by
    intro x hx
    simp only [decide_eq_false_iff_not]
    rcases List.mem_append.mp hx with h1 | h1
    · exact hq x (List.mem_cons_of_mem _ (List.mem_reverse.mp h1))
    · have hxc : x = c := by simpa using h1
      subst hxc
      exact hq x (List.mem_cons_self _ _)
  show ((((List.replicate k1 q ++ (c :: t)) ++ List.replicate k2 q).dropWhile
      (fun c0 => decide (c0 = q))).reverse.dropWhile
        (fun c0 => decide (c0 = q))).reverse = c :: t
  rw [List.append_assoc, dropWhile_replicate_append]
  rw [List.cons_append, List.dropWhile_cons,
    if_neg (by simp [hq c (List.mem_cons_self c t)])]
  rw [List.reverse_cons, List.reverse_append, List.reverse_replicate,
    List.append_assoc, dropWhile_replicate_append,
    dropWhile_eq_self_of_none hall]
  simp

/-- Counterexample to C6: the source strips ALL leading and trailing quote
characters (`str.strip('"')`), not one matching pair — an unmatched leading
quote disappears, and doubled quote pairs are both removed, whereas the
claim's one-matching-pair reading (`specStripOnePair`) keeps them. -/
theorem c6_counterexample :
    normalize_sku (Val.str "\"X") = .ok (some "X") ∧
      specStripOnePair "\"X" = "\"X" ∧
      normalize_sku (Val.str "\"\"X\"\"") = .ok (some "X") ∧
      specStripOnePair "\"\"X\"\"" = "\"X\"" :=
  ⟨by decide, by decide, by decide, by decide⟩

/-- C6 as amended: for non-numeric, non-sentinel text the pipeline collapses
whitespace, trims, strips ALL leading and trailing double quotes, then all
leading and trailing single quotes (matched or not), and uppercases: a core
with no quotes or whitespace wrapped in any numbers of double quotes
normalizes to its uppercase form; in particular `normalize('"X"') = "X"`. -/
theorem c6_amended_quote_stripping :
    (∀ (k1 k2 : Nat) (s : String), s.toList ≠ [] →
        (∀ c ∈ s.toList, pySpace c = false ∧ c ≠ '"' ∧ c ≠ '\x27') →
        strLooksNumeric (mkQuoted k1 s k2) = false →
        pyUpper s ∉ SENTINELS →
        normalize_sku (Val.str (mkQuoted k1 s k2)) = .ok (some (pyUpper s))) ∧
      normalize_sku (Val.str "\"X\"") = .ok (some "X") := by
  refine ⟨?_, by decide⟩
  intro k1 k2 s hne hchars hnum hsent
  rw [normalize_sku_text hnum]
  have hsp : ∀ c ∈ (mkQuoted k1 s k2).toList, pySpace c = false := by
    intro c hc
    have hc2 : c ∈ List.replicate k1 '"' ++ s.toList ++ List.replicate k2 '"' := hc
    rcases List.mem_append.mp hc2 with h1 | h1
    · rcases List.mem_append.mp h1 with h2 | h2
      · rw [List.eq_of_mem_replicate h2]
        rfl
      · exact (hchars c h2).1
    · rw [List.eq_of_mem_replicate h1]
      rfl
  have hcore : normCore (mkQuoted k1 s k2) = pyUpper s := by
    show pyUpper (pyStripWith (fun c => decide (c = '\x27'))
        (pyStripWith (fun c => decide (c = '"'))
          (pyStripWith pySpace (collapseStr
            (pyStripWith pySpace (mkQuoted k1 s k2)))))) = pyUpper s
    rw [pyStripWith_eq_self hsp, collapseStr_eq_self hsp, pyStripWith_eq_self hsp]
    rw [show pyStripWith (fun c => decide (c = '"')) (mkQuoted k1 s k2) =
        stripChar '"' (String.mk (List.replicate k1 '"' ++ s.toList ++
          List.replicate k2 '"')) from rfl]
    rw [stripChar_quoted '"' k1 k2 s.toList hne (fun c hc => (hchars c hc).2.1)]
    rw [mk_toList]
    rw [pyStripWith_eq_self (fun c hc => by
      simp only [decide_eq_false_iff_not]
      exact (hchars c hc).2.2)]
  rw [hcore, if_neg hsent]

/-- Witness for C6's amended statement: one unmatched leading quote. -/
theorem c6_amended_quote_stripping_witness :
    normalize_sku (Val.str (mkQuoted 1 "X" 0)) = .ok (some (pyUpper "X")) :=
  c6_amended_quote_stripping.1 1 0 "X" (by decide) (by decide) (by decide)
    (by decide)

/-- Witness for C9: dropping the failing `W2.xlsx` from the demonstration run
changes only the read-error map, which gains exactly its entry. -/
theorem c9_read_failure_isolation_witness :
    demoOut.details = (AnalyzeOut.mk demoOut.details [] demoOut.sku_col_map).details ∧
      demoOut.read_errors.filter (fun e => e.1 = "W2.xlsx") =
        [("W2.xlsx", "Failed to read: " ++ "boom")] := by
  have h := c9_read_failure_isolation
    [.good "W1.xlsx" [("s1", ⟨[("SKU", [some "A1", some "A1"])]⟩)]]
    ([] : List WbSource) "W2.xlsx" "boom" [] demoRx demoOut
    ⟨demoOut.details, [], demoOut.sku_col_map⟩
    (by decide) (by decide) (by decide) (by decide)
  exact ⟨h.1, h.2.2.2.2⟩

end SkuDupe
